import Mathlib

/-!
Shallow embedding of the order / inventory / category logic of the
e-commerce backend (Django app `api`): models.py, signals.py,
serializers.py, views.py.  Machine integers of the store are modelled as
`Int`; timestamps as `Nat`; the single contended product's
`stock_quantity` is the `stock` field of the `Db` state.
-/

/-- Order.StatusChoices from models.py (PENDING 0, CONFIRMED 10, PROCESSING 20,
SHIPPED 30, DELIVERED 40, CANCELLED 50). -/
inductive Status where
  | pending
  | confirmed
  | processing
  | shipped
  | delivered
  | cancelled
deriving DecidableEq

/-- OrderStatusHistory.ChangeSource from models.py (api, admin, system). -/
inductive ChangeSource where
  | api
  | admin
  | system
deriving DecidableEq

/-- Ambient request context captured by RequestContextMiddleware
(middlewares.py): the resolved channel (admin app or public API), the
authenticated user if any, and the client IP if any.  `none` at the
call site of `get_current_request` models a background / system-triggered
change with no in-flight request. -/
structure ReqCtx where
  isAdmin : Bool
  user : Option String
  ip : Option String
deriving DecidableEq

/-- Attribution computed in create_order_status_history (signals.py lines
39-53): changed_by and change_source start as None / SYSTEM; when a request
is present the source becomes ADMIN when the resolver app is the admin site
and API otherwise, and changed_by becomes the user when authenticated. -/
def historyAttribution (ctx : Option ReqCtx) : ChangeSource × Option String :=
  match ctx with
  | none => (ChangeSource.system, none)
  | some c => (if c.isAdmin then ChangeSource.admin else ChangeSource.api, c.user)

/-- One OrderStatusHistory row (models.py lines 314-344): old_status is null
only for the creation record. -/
structure HistRow where
  oldStatus : Option Status
  newStatus : Status
  changedBy : Option String
  source : ChangeSource
  ip : Option String
deriving DecidableEq

/-- Row construction performed by create_order_status_history
(signals.py lines 55-62). -/
def mkHist (old : Option Status) (new : Status) (ctx : Option ReqCtx) : HistRow :=
  { oldStatus := old
    newStatus := new
    changedBy := (historyAttribution ctx).2
    source := (historyAttribution ctx).1
    ip := ctx.bind ReqCtx.ip }

/-- One persisted Order row, restricted to the fields the claims mention. -/
structure OrderRow where
  quantity : Int
  status : Status
  statusChangedAt : Option Nat
deriving DecidableEq

/-- Persisted state: the product's stock_quantity plus the orders and
order_status_history tables. -/
structure Db where
  stock : Int
  orders : List OrderRow
  history : List HistRow
deriving DecidableEq

/-- Product.decrease_stock (models.py lines 230-232) issues the unconditional
SQL update `stock_quantity = stock_quantity - quantity`; the check constraint
stock_quantity_gte_0 (models.py lines 213-217) rejects the statement with an
IntegrityError when the result would be negative, leaving the row unchanged.
`none` models that rejection. -/
def decrease_stock (stock qty : Int) : Option Int :=
  if 0 ≤ stock - qty then some (stock - qty) else none

/-- Product.increase_stock (models.py lines 234-236): unconditional atomic
increment. -/
def increase_stock (stock qty : Int) : Int :=
  stock + qty

/-- update_stock_on_order (signals.py lines 80-108), as a function from the
old stock value to the new one.  It returns the stock unchanged when the
status did not change, decreases it when the order was just created or moved
into PENDING from a non-PENDING state, and increases it when the order moved
into CANCELLED from a non-CANCELLED state.  `none` is the IntegrityError of
the guarded decrement. -/
def updateStockOnOrder (created : Bool) (old : Option Status) (new : Status)
    (qty stock : Int) : Option Int :=
  if old = some new then some stock
  else if created = true ∨ (old ≠ some Status.pending ∧ new = Status.pending) then
    decrease_stock stock qty
  else if new = Status.cancelled ∧ old ≠ some Status.cancelled then
    some (increase_stock stock qty)
  else some stock

/-- Failure modes of the order operations: the serializer's ValidationError
for insufficient stock, and the database IntegrityError raised by the
stock_quantity_gte_0 constraint. -/
inductive OrderErr where
  | notEnoughStock
  | integrity
  | notFound
deriving DecidableEq

/-- OrderSerializer.create (serializers.py lines 144-158) composed with the
signal handlers that `Order.objects.create` fires inside the same
`transaction.atomic` block.  Steps, in program order:
1. conditional update `filter(stock_quantity >= quantity).update(stock - quantity)`;
   zero rows updated raises ValidationError and the transaction rolls back;
2. `Order.objects.create`: pre_save sets `_old_status = None` and
   `status_changed_at = now` (new object), the row is inserted, post_save
   create_order_status_history appends a history row (None differs from any
   concrete status), post_save update_stock_on_order runs with created=True
   and decreases stock a second time; its IntegrityError also rolls the whole
   transaction back.  On any failure the returned state is the input state. -/
def orderCreate (db : Db) (qty : Int) (s0 : Status) (now : Nat)
    (ctx : Option ReqCtx) : Db × Option OrderErr :=
  if qty ≤ db.stock then
    let stock1 := db.stock - qty
    match updateStockOnOrder true none s0 qty stock1 with
    | some stock2 =>
        ({ stock := stock2
           orders := db.orders ++ [{ quantity := qty, status := s0, statusChangedAt := some now }]
           history := db.history ++ [mkHist none s0 ctx] }, none)
    | none => (db, some OrderErr.integrity)
  else (db, some OrderErr.notEnoughStock)

/-- Status update of an existing order (OrderViewSet update through
OrderSerializer, which delegates to `instance.save()`), composing the signal
handlers in their registration order: pre_save track_order_status_change
reads the old status from the database; pre_save update_status_timestamp
sets status_changed_at when the status changed; the order row is written;
post_save create_order_status_history appends the history row; post_save
update_stock_on_order adjusts the stock.  There is no enclosing transaction
on this path, so when the guarded decrement fails the already-written order
row and history row remain and only the stock is unchanged. -/
def orderUpdateStatus (db : Db) (i : Nat) (s2 : Status) (now : Nat)
    (ctx : Option ReqCtx) : Db × Option OrderErr :=
  match db.orders.get? i with
  | none => (db, some OrderErr.notFound)
  | some o =>
      let old := o.status
      let o2 : OrderRow :=
        { o with
            status := s2
            statusChangedAt := if old ≠ s2 then some now else o.statusChangedAt }
      let db1 : Db := { db with orders := db.orders.set i o2 }
      let db2 : Db :=
        if old = s2 then db1
        else { db1 with history := db1.history ++ [mkHist (some old) s2 ctx] }
      match updateStockOnOrder false (some old) s2 o.quantity db2.stock with
      | some st => ({ db2 with stock := st }, none)
      | none => (db2, some OrderErr.integrity)

/-! Helper lemmas about the stock side effect of a status update. -/

lemma updateStockOnOrder_to_cancelled (s : Status) (q st : Int)
    (h : s ≠ Status.cancelled) :
    updateStockOnOrder false (some s) Status.cancelled q st = some (st + q) := by
  unfold updateStockOnOrder increase_stock
  rw [if_neg (by simp [h]), if_neg (by simp), if_pos (by simp [h])]

lemma updateStockOnOrder_to_pending (s : Status) (q st : Int)
    (h : s ≠ Status.pending) (hq : 0 ≤ st - q) :
    updateStockOnOrder false (some s) Status.pending q st = some (st - q) := by
  unfold updateStockOnOrder decrease_stock
  rw [if_neg (by simp [h]), if_pos (by simp [h]), if_pos hq]

lemma updateStockOnOrder_other (s s2 : Status) (q st : Int)
    (h1 : s2 ≠ Status.cancelled) (h2 : s2 ≠ Status.pending) :
    updateStockOnOrder false (some s) s2 q st = some st := by
  unfold updateStockOnOrder
  by_cases hss : s = s2
  · rw [if_pos (by simp [hss])]
  · rw [if_neg (by simp [hss]), if_neg (by simp [h2]), if_neg (by simp [h1])]

lemma orderUpdateStatus_stock (db : Db) (i : Nat) (s2 : Status) (now : Nat)
    (ctx : Option ReqCtx) (o : OrderRow) (hget : db.orders.get? i = some o) :
    (orderUpdateStatus db i s2 now ctx).1.stock =
      match updateStockOnOrder false (some o.status) s2 o.quantity db.stock with
      | some st => st
      | none => db.stock := by
  unfold orderUpdateStatus
  rw [hget]
  by_cases hss : o.status = s2
  · simp only [hss]
    cases hmatch : updateStockOnOrder false (some s2) s2 o.quantity db.stock <;>
      simp [hmatch]
  · simp only [hss]
    cases hmatch : updateStockOnOrder false (some o.status) s2 o.quantity db.stock <;>
      simp [hmatch, hss]

/-- C1: the claim says order creation with quantity q against sufficient
stock leaves stock_quantity decreased by exactly q, once.  Evaluating the
order-creation operation at stock 10, quantity 3 shows it succeeds but
leaves stock 4: the serializer's conditional update and the post_save
signal update_stock_on_order each subtract the quantity, so the stock is
decreased twice, contradicting the claim (and the intent asserted by the
repository's own test, which expects initial stock minus quantity). -/
theorem order_create_double_decrement :
    (orderCreate ⟨10, [], []⟩ 3 Status.pending 0 none).2 = none ∧
    (orderCreate ⟨10, [], []⟩ 3 Status.pending 0 none).1.stock = 4 ∧
    ¬ (orderCreate ⟨10, [], []⟩ 3 Status.pending 0 none).1.stock = 10 - 3 := by
  decide

/-- C2: an order-creation request whose quantity exceeds the available
stock fails with the insufficient-stock error and the state is returned
unchanged: stock untouched, no order row, no history row (the
ValidationError aborts the transaction.atomic block before anything is
written). -/
theorem order_create_insufficient_stock_atomic :
    ∀ (db : Db) (qty : Int) (s0 : Status) (now : Nat) (ctx : Option ReqCtx),
      db.stock < qty →
      orderCreate db qty s0 now ctx = (db, some OrderErr.notEnoughStock) := by
  intro db qty s0 now ctx h
  unfold orderCreate
  rw [if_neg (by omega)]

/-- Witness for C2 at stock 2, quantity 5. -/
theorem order_create_insufficient_stock_atomic_w :
    orderCreate ⟨2, [], []⟩ 5 Status.pending 0 none =
      (⟨2, [], []⟩, some OrderErr.notEnoughStock) :=
  order_create_insufficient_stock_atomic ⟨2, [], []⟩ 5 Status.pending 0 none
    (by decide)

/-- C3: for a status update of an existing order from old status s to new
status s2 with s different from s2, moving into Cancelled increases the
stock by the order quantity, moving into Pending decreases it by the order
quantity (the guarded decrement succeeds when the stock suffices), and any
other target status leaves the stock unchanged. -/
theorem stock_delta_on_status_update :
    ∀ (db : Db) (i : Nat) (s2 : Status) (now : Nat) (ctx : Option ReqCtx)
      (o : OrderRow),
      db.orders.get? i = some o → o.status ≠ s2 →
      ((s2 = Status.cancelled →
          (orderUpdateStatus db i s2 now ctx).1.stock = db.stock + o.quantity) ∧
       (s2 = Status.pending → o.quantity ≤ db.stock →
          (orderUpdateStatus db i s2 now ctx).1.stock = db.stock - o.quantity) ∧
       (s2 ≠ Status.cancelled → s2 ≠ Status.pending →
          (orderUpdateStatus db i s2 now ctx).1.stock = db.stock)) := by
  intro db i s2 now ctx o hget hne
  refine ⟨?_, ?_, ?_⟩
  · intro h
    subst h
    rw [orderUpdateStatus_stock db i Status.cancelled now ctx o hget,
      updateStockOnOrder_to_cancelled o.status o.quantity db.stock hne]
  · intro h hq
    subst h
    rw [orderUpdateStatus_stock db i Status.pending now ctx o hget,
      updateStockOnOrder_to_pending o.status o.quantity db.stock hne (by omega)]
  · intro h1 h2
    rw [orderUpdateStatus_stock db i s2 now ctx o hget,
      updateStockOnOrder_other o.status s2 o.quantity db.stock h1 h2]

/-- Witness for C3: cancelling a processing order of quantity 2 on stock 7
yields stock 9. -/
theorem stock_delta_on_status_update_w :
    (orderUpdateStatus ⟨7, [⟨2, Status.processing, none⟩], []⟩ 0
        Status.cancelled 5 none).1.stock = 7 + 2 :=
  (stock_delta_on_status_update ⟨7, [⟨2, Status.processing, none⟩], []⟩ 0
      Status.cancelled 5 none ⟨2, Status.processing, none⟩ rfl
      (by decide)).1 rfl

/-- C4: every save of an order whose status changed appends exactly one
history row recording old and new status and stamps status_changed_at with
the current time.  First conjunct: creation (old status null).  Second
conjunct: update of an existing order with a different status. -/
theorem status_change_appends_history :
    (∀ (db : Db) (qty : Int) (s0 : Status) (now : Nat) (ctx : Option ReqCtx)
        (db2 : Db),
        orderCreate db qty s0 now ctx = (db2, none) →
        db2.history = db.history ++ [mkHist none s0 ctx] ∧
        db2.orders = db.orders ++
          [{ quantity := qty, status := s0, statusChangedAt := some now }]) ∧
    (∀ (db : Db) (i : Nat) (s2 : Status) (now : Nat) (ctx : Option ReqCtx)
        (o : OrderRow),
        db.orders.get? i = some o → o.status ≠ s2 →
        (orderUpdateStatus db i s2 now ctx).1.history =
          db.history ++ [mkHist (some o.status) s2 ctx] ∧
        (orderUpdateStatus db i s2 now ctx).1.orders.get? i =
          some { quantity := o.quantity, status := s2,
                 statusChangedAt := some now }) := by
  constructor
  · intro db qty s0 now ctx db2 h
    unfold orderCreate at h
    split at h
    · cases hmatch : updateStockOnOrder true none s0 qty (db.stock - qty) with
      | some st =>
          simp only [hmatch] at h
          injection h with h1 h2
          subst h1
          simp
      | none =>
          simp only [hmatch] at h
          injection h with h1 h2
          simp at h2
    · injection h with h1 h2
      simp at h2
  · intro db i s2 now ctx o hget hne
    have hlen : i < db.orders.length := by
      rcases List.get?_eq_some.mp hget with ⟨hl, _⟩
      exact hl
    unfold orderUpdateStatus
    rw [hget]
    cases hmatch : updateStockOnOrder false (some o.status) s2 o.quantity db.stock <;>
      (refine ⟨by simp [hmatch, hne], ?_⟩
       simp [hmatch, hne]
       exact List.getElem?_set_eq_of_lt _ hlen)

/-- Witness for C4, second conjunct, at a concrete one-order state. -/
theorem status_change_appends_history_w :
    (orderUpdateStatus ⟨7, [⟨2, Status.pending, none⟩], []⟩ 0
        Status.confirmed 5 none).1.history =
      [mkHist (some Status.pending) Status.confirmed none] :=
  ((status_change_appends_history).2 ⟨7, [⟨2, Status.pending, none⟩], []⟩ 0
      Status.confirmed 5 none ⟨2, Status.pending, none⟩ rfl (by decide)).1

/-- C5: the stock decrement applies exactly when the current stock is at
least the requested quantity; otherwise it fails and the stock value is
left unchanged (the conditioned update matched no row). -/
theorem decrease_stock_conditional :
    ∀ stock qty : Int,
      (qty ≤ stock → decrease_stock stock qty = some (stock - qty)) ∧
      (stock < qty → decrease_stock stock qty = none) := by
  intro stock qty
  constructor
  · intro h
    unfold decrease_stock
    rw [if_pos (by omega)]
  · intro h
    unfold decrease_stock
    rw [if_neg (by omega)]

/-- Witness for C5 at stock 5, quantity 2 and stock 1, quantity 2. -/
theorem decrease_stock_conditional_w :
    decrease_stock 5 2 = some (5 - 2) ∧ decrease_stock 1 2 = none :=
  ⟨(decrease_stock_conditional 5 2).1 (by decide),
   (decrease_stock_conditional 1 2).2 (by decide)⟩

/-!
Category tree (models.py Category, views.py CategoryViewSet).  A category
row carries its id and delete_status; the `children` reverse relation is
embedded as the forest of subtrees.  `CatForest` is the list of children,
kept as a mutual inductive so that all traversals are structural.
-/

mutual
inductive CatTree where
  | node (cid : Nat) (deleted : Bool) (children : CatForest)
inductive CatForest where
  | nil
  | cons (c : CatTree) (cs : CatForest)
end

/-- delete_status of the root row of a subtree. -/
def CatTree.deleted : CatTree → Bool
  | .node _ d _ => d

mutual
/-- CategoryViewSet._soft_delete_recursive (views.py lines 133-143): set
delete_status on the current row, then recurse into exactly the children
whose delete_status is still NOT_DELETED; already-deleted children (and
hence their whole subtrees) are left untouched. -/
def softDeleteRec : CatTree → CatTree
  | .node i _ cs => .node i true (softDeleteRecF cs)
/-- Iteration of _soft_delete_recursive over the filtered children query. -/
def softDeleteRecF : CatForest → CatForest
  | .nil => .nil
  | .cons c cs => .cons (if c.deleted then c else softDeleteRec c) (softDeleteRecF cs)
end

/-- Category.restore (models.py lines 107-110): clears delete_status on this
row only; children are untouched. -/
def restore : CatTree → CatTree
  | .node i _ cs => .node i false cs

mutual
/-- Number of category rows in a subtree. -/
def tsize : CatTree → Nat
  | .node _ _ cs => 1 + fsize cs
def fsize : CatForest → Nat
  | .nil => 0
  | .cons c cs => tsize c + fsize cs
end

mutual
/-- Number of rows of a subtree with delete_status = DELETED. -/
def tdel : CatTree → Nat
  | .node _ d cs => (if d then 1 else 0) + fdel cs
def fdel : CatForest → Nat
  | .nil => 0
  | .cons c cs => tdel c + fdel cs
end

mutual
/-- Every row of the subtree has delete_status = NOT_DELETED. -/
def allLive : CatTree → Bool
  | .node _ d cs => !d && allLiveF cs
def allLiveF : CatForest → Bool
  | .nil => true
  | .cons c cs => allLive c && allLiveF cs
end

mutual
/-- Some row with the given id and delete_status = NOT_DELETED exists in the
subtree. -/
def hasLive (x : Nat) : CatTree → Bool
  | .node i d cs => (x == i && !d) || hasLiveF x cs
def hasLiveF (x : Nat) : CatForest → Bool
  | .nil => false
  | .cons c cs => hasLive x c || hasLiveF x cs
end

/-- Membership of a subtree among the children of a forest. -/
def fmem (b : CatTree) : CatForest → Prop
  | .nil => False
  | .cons c cs => b = c ∨ fmem b cs

mutual
theorem sdr_size : ∀ t : CatTree, tsize (softDeleteRec t) = tsize t
  | .node i d cs => by
      simp [softDeleteRec, tsize, sdrF_size cs]
theorem sdrF_size : ∀ cs : CatForest, fsize (softDeleteRecF cs) = fsize cs
  | .nil => rfl
  | .cons c cs => by
      by_cases hd : c.deleted
      · simp [softDeleteRecF, hd, fsize, sdrF_size cs]
      · simp [softDeleteRecF, hd, fsize, sdr_size c, sdrF_size cs]
end

mutual
theorem sdr_del : ∀ t : CatTree, allLive t = true →
    tdel (softDeleteRec t) = tsize t
  | .node i d cs => by
      intro h
      simp only [allLive, Bool.and_eq_true] at h
      simp [softDeleteRec, tdel, tsize, sdrF_del cs h.2]
theorem sdrF_del : ∀ cs : CatForest, allLiveF cs = true →
    fdel (softDeleteRecF cs) = fsize cs
  | .nil => by intro _; rfl
  | .cons c cs => by
      intro h
      simp only [allLiveF, Bool.and_eq_true] at h
      have hd : c.deleted = false := by
        cases c with
        | node i d cs2 =>
            have := h.1
            simp only [allLive, Bool.and_eq_true, Bool.not_eq_true'] at this
            exact this.1
      simp [softDeleteRecF, hd, fdel, fsize, sdr_del c h.1, sdrF_del cs h.2]
end

/-- C6: soft-deleting a category whose N descendants are all not deleted
marks exactly the N + 1 rows of its subtree as deleted (the node count is
preserved and every row of the result is deleted), and restoring the root
afterwards clears the flag on the root only, leaving all N descendants
deleted. -/
theorem soft_delete_cascade_then_restore :
    ∀ t : CatTree, allLive t = true →
      tsize (softDeleteRec t) = tsize t ∧
      tdel (softDeleteRec t) = tsize t ∧
      (restore (softDeleteRec t)).deleted = false ∧
      tdel (restore (softDeleteRec t)) = tsize t - 1 := by
  intro t h
  cases t with
  | node i d cs =>
      have hcs : allLiveF cs = true := by
        simp only [allLive, Bool.and_eq_true] at h
        exact h.2
      refine ⟨sdr_size _, sdr_del _ h, ?_, ?_⟩
      · simp [softDeleteRec, restore, CatTree.deleted]
      · simp [softDeleteRec, restore, tdel, tsize, sdrF_del cs hcs]

/-- Witness for C6 on the chain 0 - 1 - 2 (N = 2 descendants, all live). -/
theorem soft_delete_cascade_then_restore_w :
    tdel (softDeleteRec (.node 0 false
        (.cons (.node 1 false (.cons (.node 2 false .nil) .nil)) .nil))) =
      tsize (CatTree.node 0 false
        (.cons (.node 1 false (.cons (.node 2 false .nil) .nil)) .nil)) ∧
    tdel (restore (softDeleteRec (.node 0 false
        (.cons (.node 1 false (.cons (.node 2 false .nil) .nil)) .nil)))) =
      tsize (CatTree.node 0 false
        (.cons (.node 1 false (.cons (.node 2 false .nil) .nil)) .nil)) - 1 := by
  have h := soft_delete_cascade_then_restore
    (.node 0 false (.cons (.node 1 false (.cons (.node 2 false .nil) .nil)) .nil))
    (by decide)
  exact ⟨h.2.1, h.2.2.2⟩

/-! Lemmas for the skipped-subtree behaviour of the cascade. -/

lemma sdrF_keeps_deleted_member :
    ∀ (b : CatTree) (cs : CatForest), fmem b cs → b.deleted = true →
      fmem b (softDeleteRecF cs)
  | _, .nil, h, _ => h.elim
  | b, .cons c cs, h, hd => by
      cases h with
      | inl heq =>
          subst heq
          simp [softDeleteRecF, hd, fmem]
      | inr hmem =>
          exact Or.inr (sdrF_keeps_deleted_member b cs hmem hd)

lemma hasLiveF_of_fmem :
    ∀ (x : Nat) (b : CatTree) (cs : CatForest), fmem b cs →
      hasLive x b = true → hasLiveF x cs = true
  | _, _, .nil, h, _ => h.elim
  | x, b, .cons c cs, h, hl => by
      cases h with
      | inl heq =>
          subst heq
          simp [hasLiveF, hl]
      | inr hmem =>
          simp [hasLiveF, hasLiveF_of_fmem x b cs hmem hl]

/-- C10: the cascade does not descend through an already-deleted child.
For any category with a child subtree b already marked deleted, any
not-deleted row inside b (for instance the grandchild C of the claim) is
still present and not deleted after soft-deleting the root. -/
theorem soft_delete_skips_deleted_child :
    ∀ (a : Nat) (da : Bool) (cs : CatForest) (b : CatTree) (x : Nat),
      fmem b cs → b.deleted = true → hasLive x b = true →
      hasLive x (softDeleteRec (CatTree.node a da cs)) = true := by
  intro a da cs b x hm hd hl
  have hm2 := sdrF_keeps_deleted_member b cs hm hd
  have hfor := hasLiveF_of_fmem x b (softDeleteRecF cs) hm2 hl
  simp [softDeleteRec, hasLive, hfor]

/-- Witness for C10: A = 0 with deleted child B = 1 whose child C = 2 is
live; after soft-deleting A, node 2 is still live. -/
theorem soft_delete_skips_deleted_child_w :
    hasLive 2 (softDeleteRec (CatTree.node 0 false
      (.cons (.node 1 true (.cons (.node 2 false .nil) .nil)) .nil))) = true :=
  soft_delete_skips_deleted_child 0 false
    (.cons (.node 1 true (.cons (.node 2 false .nil) .nil)) .nil)
    (.node 1 true (.cons (.node 2 false .nil) .nil)) 2
    (Or.inl rfl) rfl (by decide)

/-!
Category parent reassignment (serializers.py CategoryCreateUpdateSerializer).
The persisted categories are a finite association list from id to parent id;
the ancestor walk carries explicit fuel, with `rootedWithin` expressing that
the chain reaches a root within that fuel (the acyclicity invariant of the
persisted tree, which makes the while loop of the source terminate).
-/

/-- parent_category lookup on the persisted store. -/
def parentOf (st : List (Nat × Option Nat)) (i : Nat) : Option Nat :=
  (st.lookup i).join

/-- Ancestor chain starting at (and including) the given id, as walked by
the validator. -/
def chainFrom (st : List (Nat × Option Nat)) : Nat → Nat → List Nat
  | 0, _ => []
  | fuel + 1, i =>
      i :: (match parentOf st i with
            | none => []
            | some p => chainFrom st fuel p)

/-- The parent chain from the given id reaches a root within the fuel. -/
def rootedWithin (st : List (Nat × Option Nat)) : Nat → Nat → Bool
  | 0, _ => false
  | fuel + 1, i =>
      match parentOf st i with
      | none => true
      | some p => rootedWithin st fuel p

/-- The while loop of CategoryCreateUpdateSerializer.validate (serializers.py
lines 75-92): walk up from the proposed parent; finding the instance id means
a circular reference (some false); reaching a root means the assignment is
acceptable (some true); `none` is the nonterminating walk on a store whose
chain never roots, excluded by the persisted-acyclicity invariant. -/
def checkCircular (st : List (Nat × Option Nat)) (instId : Nat) :
    Nat → Nat → Option Bool
  | 0, _ => none
  | fuel + 1, cur =>
      if cur = instId then some false
      else
        match parentOf st cur with
        | none => some true
        | some p => checkCircular st instId fuel p

/-- Errors of the category update operation. -/
inductive CatErr where
  | circular
  | nonterminating
deriving DecidableEq

/-- Parent reassignment, validate-then-commit: validation runs before any
write (DRF is_valid precedes save), so a circular-reference rejection
returns the store unchanged; on success the instance row gets the new
parent. -/
def categoryUpdateParent (st : List (Nat × Option Nat)) (fuel instId newParent : Nat) :
    List (Nat × Option Nat) × Option CatErr :=
  match checkCircular st instId fuel newParent with
  | some false => (st, some CatErr.circular)
  | some true =>
      (st.map (fun e => if e.1 = instId then (e.1, some newParent) else e), none)
  | none => (st, some CatErr.nonterminating)

/-- The proposed parent is a strict descendant of the given ancestor id:
the ancestor id occurs in the proper ancestor chain above it. -/
def isDescendantOf (st : List (Nat × Option Nat)) (fuel d anc : Nat) : Bool :=
  decide (anc ∈ (chainFrom st fuel d).drop 1)

lemma checkCircular_eq (st : List (Nat × Option Nat)) (instId : Nat) :
    ∀ (fuel p : Nat), rootedWithin st fuel p = true →
      checkCircular st instId fuel p =
        some (! decide (instId ∈ chainFrom st fuel p)) := by
  intro fuel
  induction fuel with
  | zero =>
      intro p h
      simp [rootedWithin] at h
  | succ fuel ih =>
      intro p h
      by_cases hpi : p = instId
      · subst hpi
        simp [checkCircular, chainFrom]
      · have hne : instId ≠ p := fun hh => hpi hh.symm
        cases hq : parentOf st p with
        | none =>
            simp [checkCircular, hpi, hq, chainFrom, hne]
        | some q =>
            have h2 : rootedWithin st fuel q = true := by
              simpa [rootedWithin, hq] using h
            simp [checkCircular, hpi, hq, chainFrom, hne, ih q h2]

/-- C7: a category update proposing a new parent whose ancestor chain
(starting at the proposed parent itself, so parent = instance included)
contains the instance id fails with the circular-reference error and
leaves the store unchanged; in particular reassigning the parent to a
strict descendant of the instance is always rejected. -/
theorem category_parent_cycle_rejected :
    ∀ (st : List (Nat × Option Nat)) (fuel instId p : Nat),
      rootedWithin st fuel p = true →
      ((instId ∈ chainFrom st fuel p →
          categoryUpdateParent st fuel instId p = (st, some CatErr.circular)) ∧
       (isDescendantOf st fuel p instId = true →
          categoryUpdateParent st fuel instId p = (st, some CatErr.circular))) := by
  intro st fuel instId p hroot
  have hcc := checkCircular_eq st instId fuel p hroot
  have main : instId ∈ chainFrom st fuel p →
      categoryUpdateParent st fuel instId p = (st, some CatErr.circular) := by
    intro hmem
    unfold categoryUpdateParent
    rw [hcc]
    simp [hmem]
  refine ⟨main, ?_⟩
  intro hdesc
  have hdrop : instId ∈ (chainFrom st fuel p).drop 1 := of_decide_eq_true hdesc
  exact main (List.drop_subset 1 (chainFrom st fuel p) hdrop)

/-- Witness for C7 on the chain 3 below 2 below root 1: moving the parent
of 1 onto its descendant 3 is rejected and the store is unchanged. -/
theorem category_parent_cycle_rejected_w :
    categoryUpdateParent [(1, none), (2, some 1), (3, some 2)] 3 1 3 =
      ([(1, none), (2, some 1), (3, some 2)], some CatErr.circular) :=
  (category_parent_cycle_rejected [(1, none), (2, some 1), (3, some 2)] 3 1 3
    (by decide)).1 (by decide)

/-- C8 counterexample: with no request context, create_order_status_history
initialises changed_by to None and never assigns it again, so the recorded
row has changed_by null rather than the string claimed by the spec, while
change_source is indeed system. -/
theorem history_attribution_system_cex :
    (mkHist none Status.pending none).source = ChangeSource.system ∧
    (mkHist none Status.pending none).changedBy = none ∧
    ¬ (mkHist none Status.pending none).changedBy = some "system" := by
  decide

/-- C8 amended: attribution is derived from the operation context: an
authenticated actor through the administrative channel yields
change_source admin; a public-facing channel yields change_source api; when
no context is present, change_source is system and changed_by is left
null. -/
theorem history_attribution_by_channel :
    ∀ (old : Option Status) (s : Status) (ctx : Option ReqCtx),
      (∀ c u, ctx = some c → c.user = some u → c.isAdmin = true →
          (mkHist old s ctx).source = ChangeSource.admin) ∧
      (∀ c, ctx = some c → c.isAdmin = false →
          (mkHist old s ctx).source = ChangeSource.api) ∧
      (ctx = none →
          (mkHist old s ctx).source = ChangeSource.system ∧
          (mkHist old s ctx).changedBy = none) := by
  intro old s ctx
  refine ⟨?_, ?_, ?_⟩
  · intro c u hc hu ha
    subst hc
    simp [mkHist, historyAttribution, ha]
  · intro c hc ha
    subst hc
    simp [mkHist, historyAttribution, ha]
  · intro hc
    subst hc
    simp [mkHist, historyAttribution]

/-- Witness for C8 across the three channels. -/
theorem history_attribution_by_channel_w :
    (mkHist none Status.pending (some ⟨true, some "alice", none⟩)).source =
      ChangeSource.admin ∧
    (mkHist none Status.pending (some ⟨false, none, none⟩)).source =
      ChangeSource.api ∧
    (mkHist none Status.pending none).source = ChangeSource.system :=
  ⟨(history_attribution_by_channel none Status.pending
      (some ⟨true, some "alice", none⟩)).1 ⟨true, some "alice", none⟩ "alice"
      rfl rfl rfl,
   (history_attribution_by_channel none Status.pending
      (some ⟨false, none, none⟩)).2.1 ⟨false, none, none⟩ rfl rfl,
   ((history_attribution_by_channel none Status.pending none).2.2 rfl).1⟩

/-!
Decimal pricing (models.py Product.final_price).  base_price is a
DecimalField(max_digits=10, decimal_places=2); Python Decimal stores a
coefficient and an exponent, and the default context has 28 significant
digits with rounding half-even.  Every quantity final_price can build
stays far below 28 digits, so the arithmetic is exact there; `decMul`
returns `none` in the rounded region outside the model.
-/

/-- Python Decimal value: coefficient times ten to the exponent. -/
structure Dec where
  c : Int
  e : Int
deriving DecidableEq

/-- Exact rational value of a decimal. -/
def Dec.toRat (d : Dec) : ℚ := (d.c : ℚ) * (10 : ℚ) ^ d.e

/-- Decimal multiplication: exact whenever the coefficient product fits in
the 28-digit context precision, which holds for every final_price input;
`none` marks the case the context would round. -/
def decMul (a b : Dec) : Option Dec :=
  if (a.c * b.c).natAbs < 10 ^ 28 then some ⟨a.c * b.c, a.e + b.e⟩ else none

/-- Division by the literal 100 as performed in final_price: the exact
quotient shifts the exponent down by two. -/
def decDiv100 (a : Dec) : Dec := ⟨a.c, a.e - 2⟩

/-- Product.final_price (models.py lines 222-224):
base_price * (100 - discount_percent) / 100, where the Python int
100 - discount_percent coerces to a Decimal with exponent 0. -/
def final_price (base : Dec) (d : Int) : Option Dec :=
  (decMul base ⟨100 - d, 0⟩).map decDiv100

/-- C9: final_price computes base_price * (100 - discount_percent) / 100
exactly, with no rounding, for every base price within the 10-digit column
bound and every discount in 0..100; in particular base 100.00 with
discount 25 yields exactly 75.00. -/
theorem final_price_decimal_exact :
    (∀ (base : Dec) (d : Int), base.c.natAbs < 10 ^ 10 → 0 ≤ d → d ≤ 100 →
        ∃ r, final_price base d = some r ∧
          r.toRat = base.toRat * ((100 : ℚ) - (d : ℚ)) / 100) ∧
    (final_price ⟨10000, -2⟩ 25 = some ⟨750000, -4⟩ ∧
      (⟨10000, -2⟩ : Dec).toRat = 100 ∧ (⟨750000, -4⟩ : Dec).toRat = 75) := by
  constructor
  · intro base d h1 h2 h3
    have habs : (base.c * (100 - d)).natAbs < 10 ^ 28 := by
      have hd : (100 - d).natAbs ≤ 100 := by omega
      calc (base.c * (100 - d)).natAbs
          = base.c.natAbs * (100 - d).natAbs := Int.natAbs_mul _ _
        _ ≤ base.c.natAbs * 100 := Nat.mul_le_mul_left _ hd
        _ < 10 ^ 10 * 100 := by
            have h100 : 0 < 100 := by norm_num
            exact Nat.mul_lt_mul_of_lt_of_le h1 (Nat.le_refl 100) h100
        _ < 10 ^ 28 := by norm_num
    refine ⟨⟨base.c * (100 - d), base.e + 0 - 2⟩, ?_, ?_⟩
    · unfold final_price decMul decDiv100
      rw [if_pos habs]
      rfl
    · show ((base.c * (100 - d) : ℤ) : ℚ) * (10 : ℚ) ^ (base.e + 0 - 2) =
        (base.c : ℚ) * (10 : ℚ) ^ base.e * ((100 : ℚ) - (d : ℚ)) / 100
      rw [add_zero, zpow_sub₀ (by norm_num : (10 : ℚ) ≠ 0)]
      push_cast
      field_simp
      ring
  · refine ⟨?_, ?_, ?_⟩
    · simp [final_price, decMul, decDiv100]
    · show ((10000 : ℤ) : ℚ) * (10 : ℚ) ^ (-2 : ℤ) = 100
      rw [zpow_neg]
      norm_num
    · show ((750000 : ℤ) : ℚ) * (10 : ℚ) ^ (-4 : ℤ) = 75
      rw [zpow_neg]
      norm_num

/-- Witness for C9 at base 1.00, discount 0. -/
theorem final_price_decimal_exact_w :
    ∃ r, final_price ⟨100, -2⟩ 0 = some r ∧
      r.toRat = (⟨100, -2⟩ : Dec).toRat * ((100 : ℚ) - ((0 : ℤ) : ℚ)) / 100 :=
  final_price_decimal_exact.1 ⟨100, -2⟩ 0 (by norm_num) (by norm_num) (by norm_num)
